import Mathlib

/-!
# Verification of darklua's path require mode

Shallow embedding of `src/rules/require/path_require_mode.rs`:
the alias configuration loader (`load_luaurc`), the resolution mode state
(`PathRequireMode` with its serde deserialization semantics), the
module-folder predicate (`is_module_folder_name`) and the require emitter
(`generate_require`).  File-system access is modelled by passing an explicit
map from paths to parse outcomes; the JSON layer is abstracted to the parse
result (`Except` of the extracted `Luaurc` document).
-/

namespace Darklua

/-- Model of `HashMap<String, PathBuf>`: an association list with unique keys,
`insert` overwriting the value of an existing key. -/
abbrev AliasMap := List (String × String)

/-- Semantics of `HashMap::insert`: overwrite the binding of `k` when present,
otherwise add a new binding. -/
def insertAlias (m : AliasMap) (k v : String) : AliasMap :=
  if (List.any m fun e => e.1 == k) then
    List.map (fun e => if e.1 == k then (k, v) else e) m
  else
    m ++ [(k, v)]

/-- Semantics of `HashMap::get`. -/
def lookupAlias (m : AliasMap) (k : String) : Option String :=
  Option.map Prod.snd (List.find? (fun e => e.1 == k) m)

/-- The `Luaurc` struct from the source: only the `aliases` field is
extracted from the configuration document. -/
structure Luaurc where
  aliases : List (String × String)
deriving DecidableEq

/-- Model of the file system seen by `load_luaurc`: for each path, `none`
means `File::open` fails (file absent/unreadable); `some (Except.error e)`
means the file opens but `serde_json::from_reader` fails with message `e`;
`some (Except.ok doc)` means the file opens and parses to `doc`. -/
abbrev FS := String → Option (Except String Luaurc)

/-- The error type `DarkluaError`, restricted to the constructors this
module produces. -/
inductive DarkluaError where
  | ioError (path : String) (msg : String)
  | parseError (msg : String)
  | custom (msg : String)
deriving DecidableEq

/-- The merge loop of `load_luaurc`:
`for (k, v) in luaurc.aliases { sources.insert("@" + k, v) }`. -/
def mergeAliases (aliases : List (String × String)) (sources : AliasMap) : AliasMap :=
  List.foldl (fun acc kv => insertAlias acc ("@" ++ kv.1) kv.2) sources aliases

/-- Embedding of `PathRequireMode::load_luaurc`.  With an explicit path, failure to open
is an `io_error`; with no explicit path, failure to open `./.luaurc` returns
the given `sources` unchanged as a success.  A document that opens but does
not parse is a propagated parse error; a parsed document has each alias
`(k, v)` inserted under key `"@" ++ k`. -/
def load_luaurc (fs : FS) (sources : AliasMap) (path : Option String) :
    Except DarkluaError AliasMap :=
  match path with
  | some p =>
    match fs p with
    | none => Except.error (DarkluaError.ioError p "cannot open file")
    | some (Except.error e) => Except.error (DarkluaError.parseError e)
    | some (Except.ok luaurc) => Except.ok (mergeAliases luaurc.aliases sources)
  | none =>
    match fs "./.luaurc" with
    | none => Except.ok sources
    | some (Except.error e) => Except.error (DarkluaError.parseError e)
    | some (Except.ok luaurc) => Except.ok (mergeAliases luaurc.aliases sources)

/-- Embedding of `default_sources`: `load_luaurc(HashMap::new(), None).unwrap_or_default()` —
any loader error is discarded and replaced by the empty map. -/
def default_sources (fs : FS) : AliasMap :=
  match load_luaurc fs [] none with
  | Except.ok m => m
  | Except.error _ => []

/-- The `PathRequireMode` struct: module folder name and alias sources. -/
structure PathRequireMode where
  module_folder_name : String
  sources : AliasMap

/-- The constant `DEFAULT_MODULE_FOLDER_NAME`. -/
def DEFAULT_MODULE_FOLDER_NAME : String := "init"

/-- Embedding of `impl Default for PathRequireMode`. -/
def PathRequireMode.default (fs : FS) : PathRequireMode :=
  { module_folder_name := DEFAULT_MODULE_FOLDER_NAME, sources := default_sources fs }

/-- Embedding of `PathRequireMode::new`. -/
def PathRequireMode.new (fs : FS) (module_folder_name : String) : PathRequireMode :=
  { module_folder_name := module_folder_name, sources := default_sources fs }

/-- Rendering of a `DarkluaError` as the message string seen by serde's
`Error::custom`. -/
def darkluaErrorMessage : DarkluaError → String
  | DarkluaError.ioError p m => p ++ ": " ++ m
  | DarkluaError.parseError m => m
  | DarkluaError.custom m => m

/-- Embedding of `deserialize_sources` (the `deserialize_with` hook of the
`sources` field): deserialize the raw map, then run `load_luaurc` on it with
no explicit path, converting the error with `serde::de::Error::custom`. -/
def deserialize_sources (fs : FS) (sources : AliasMap) : Except String AliasMap :=
  match load_luaurc fs sources none with
  | Except.ok m => Except.ok m
  | Except.error e => Except.error (darkluaErrorMessage e)

/-- A field value of the embedding configuration document: a string (for
`module_folder_name`), a map (for `sources`), or anything else. -/
inductive ConfigValue where
  | str (s : String)
  | map (entries : List (String × String))
  | otherValue
deriving DecidableEq

/-- The embedding configuration document: a JSON object, as its list of
fields. -/
abbrev ConfigDoc := List (String × ConfigValue)

/-- Deserialization of a raw JSON map into a `HashMap<String, PathBuf>`:
later duplicate keys overwrite earlier ones. -/
def deserializeRawMap (entries : List (String × String)) : AliasMap :=
  List.foldl (fun m kv => insertAlias m kv.1 kv.2) [] entries

/-- Field loop of the serde-derived `Deserialize` for `PathRequireMode`
under `deny_unknown_fields`: the two recognized fields fill the two slots
(erroring on duplicates or wrong types, and running `deserialize_sources`
for the `sources` field); any other field name is an unknown-field error;
missing fields fall back to their `default` functions. -/
def deserializeFields (fs : FS) :
    ConfigDoc → Option String → Option AliasMap → Except String PathRequireMode
  | [], mfn, srcs =>
    Except.ok { module_folder_name := mfn.getD DEFAULT_MODULE_FOLDER_NAME,
                sources := srcs.getD (default_sources fs) }
  | (k, v) :: rest, mfn, srcs =>
    if k = "module_folder_name" then
      match mfn, v with
      | some _, _ => Except.error "duplicate field module_folder_name"
      | none, ConfigValue.str s => deserializeFields fs rest (some s) srcs
      | none, _ => Except.error "invalid type for field module_folder_name"
    else if k = "sources" then
      match srcs, v with
      | some _, _ => Except.error "duplicate field sources"
      | none, ConfigValue.map entries =>
        match deserialize_sources fs (deserializeRawMap entries) with
        | Except.ok m => deserializeFields fs rest mfn (some m)
        | Except.error e => Except.error e
      | none, _ => Except.error "invalid type for field sources"
    else Except.error ("unknown field " ++ k)

/-- Deserialization of a `PathRequireMode` from an embedding configuration
document (`#[serde(deny_unknown_fields)]` with the field attributes of the
struct). -/
def deserializePathRequireMode (fs : FS) (doc : ConfigDoc) :
    Except String PathRequireMode :=
  deserializeFields fs doc none none

/-! ## Path components, file names and file stems

Model of `std::path::Path::file_name` / `file_stem` over Unix-style
string paths. -/

/-- Splitting a character list on a separator character. -/
def splitOnChar (sep : Char) : List Char → List (List Char)
  | [] => [[]]
  | c :: rest =>
    match splitOnChar sep rest with
    | [] => [[c]]
    | h :: t => if c = sep then [] :: h :: t else (c :: h) :: t

/-- Normal components of a path: split on the separator, dropping empty
and current-directory components (as Rust's `Path::components` does). -/
def pathComponents (p : String) : List String :=
  List.filter (fun c => !(c == "" || c == "."))
    (List.map (fun cs => String.mk cs) (splitOnChar '/' p.data))

/-- Model of `Path::file_name`: the last normal component; `none` when the
path is empty or ends in a parent-directory component. -/
def fileName (p : String) : Option String :=
  match (pathComponents p).getLast? with
  | none => none
  | some c => if c = ".." then none else some c

/-- Everything before the last dot of a character list (`some`), or `none`
when the list has no dot. -/
def dropExtAux : List Char → Option (List Char)
  | [] => none
  | c :: rest =>
    match dropExtAux rest with
    | some tail => some (c :: tail)
    | none => if c = '.' then some [] else none

/-- Stem of a file name, following Rust's `split_file_at_dot`: the whole
name when it has no dot or when its only dot is the leading character;
otherwise the portion before the final dot. -/
def fileStemOfName (name : String) : String :=
  match dropExtAux name.data with
  | none => name
  | some [] => name
  | some stem => String.mk stem

/-- Model of `Path::file_stem`: the file name with its extension split off. -/
def fileStem (p : String) : Option String :=
  Option.map fileStemOfName (fileName p)

/-- Embedding of `PathRequireMode::is_module_folder_name`:
`path.file_name() == expect || path.file_stem() == expect`. -/
def PathRequireMode.is_module_folder_name (m : PathRequireMode) (p : String) : Bool :=
  fileName p == some m.module_folder_name || fileStem p == some m.module_folder_name

/-! ## The require emitter (`generate_require`) -/

/-- Character-level effect of `str::replace("\\", "/")`. -/
def backslashToSlash (c : Char) : Char :=
  if c = '\\' then '/' else c

/-- Embedding of `.replace("\\", "/")` in `generate_require` (the pattern
is a single character, so the replacement is a character map). -/
def replaceBackslash (s : String) : String :=
  String.mk (List.map backslashToSlash s.data)

/-- Model of `str::starts_with` for string patterns. -/
def strStartsWith (pre s : String) : Bool :=
  List.isPrefixOf pre.data s.data

/-- Embedding of the prefix step of `generate_require`:
`if !(path_str.starts_with("./")) { path_str = String::from("./") + path_str }`. -/
def applyPrefixRule (s : String) : String :=
  if strStartsWith "./" s then s else "./" ++ s

/-- The path text computed by `generate_require` from the path difference
returned by `pathdiff::diff_paths`: separators normalized to `/`, then the
prefix rule. -/
def generate_require_path (diff : String) : String :=
  applyPrefixRule (replaceBackslash diff)

/-- The literal text handed to `StringExpression::new`:
`format!("[[{path_str}]]")`. -/
def generate_require_literal (diff : String) : String :=
  "[[" ++ generate_require_path diff ++ "]]"

/-! ## Path resolution and the round trip

The path-locating algorithm (`RequirePathLocator::find_require_path`) and
the lexical difference (`pathdiff::diff_paths`) live outside this module's
source; they are modelled from the spec at the level of path-segment lists
(a path is its list of components, root elided). -/

/-- A path as its list of segments. -/
abbrev Segs := List String

/-- A path whose segments contain no `.` and no `..` (the shape of every
resolved path). -/
def CleanPath (p : Segs) : Prop := ∀ s ∈ p, s ≠ "." ∧ s ≠ ".."

instance (p : Segs) : Decidable (CleanPath p) :=
  inferInstanceAs (Decidable (∀ s ∈ p, s ≠ "." ∧ s ≠ ".."))

/-- Length of the longest common prefix of two segment lists. -/
def commonPrefixLen : Segs → Segs → Nat
  | a :: as, b :: bs => if a = b then commonPrefixLen as bs + 1 else 0
  | _, _ => 0

/-- Modelled from the spec: `pathdiff::diff_paths`, the purely lexical
relative path from `base` to `target` — climb out of the part of `base`
not shared with `target`, then descend into the rest of `target`. -/
def diff_paths (target base : Segs) : Segs :=
  List.replicate (base.length - commonPrefixLen target base) ".." ++
    List.drop (commonPrefixLen target base) target

/-- One step of lexical path joining: `.` is skipped, `..` removes the last
segment, any other segment is appended. -/
def joinStep (acc : Segs) (seg : String) : Segs :=
  if seg = "." then acc else if seg = ".." then acc.dropLast else acc ++ [seg]

/-- Lexical join of a relative segment list onto a base directory,
normalizing `.` and `..` segments. -/
def normJoin (base rel : Segs) : Segs :=
  List.foldl joinStep base rel

/-- Modelled from the spec: the relative-literal part of
`RequirePathLocator::find_require_path` (the locator itself is outside this
module's source).  The literal is joined lexically onto the directory of
the current file; the result must exist, either directly or through
directory-to-index redirection to the module folder file `init.lua`
(alias-prefixed literals are omitted: the emitter under verification only
produces relative literals). -/
def find_require_path (fs : List Segs) (literal : Segs) (current : Segs) :
    Option Segs :=
  let p := normJoin current.dropLast literal
  if p ∈ fs then some p
  else if p ++ ["init.lua"] ∈ fs then some (p ++ ["init.lua"])
  else none

/-- Segment-level form of the prefix step of `generate_require`: the text
starts with `./` exactly when its first segment is `.`. -/
def applyPrefixSeg (s : Segs) : Segs :=
  if s.head? = some "." then s else "." :: s

/-- Segment-level form of `generate_require`'s path computation: drop the
file name of the current path (`current_path.pop()`), take the lexical
difference to the target (`pathdiff::diff_paths`, modelled from the spec),
and apply the prefix rule (separator normalization is the identity on
segments). -/
def generate_require_segments (target current : Segs) : Segs :=
  applyPrefixSeg (diff_paths target current.dropLast)

/-! ## Fixtures and derived notions used in the statements -/

/-- Value of the last alias binding whose decorated name is `key`
(last-loaded wins). -/
def lastAliasValue (aliases : List (String × String)) (key : String) : Option String :=
  Option.map Prod.snd (List.find? (fun kv => ("@" ++ kv.1) == key) aliases.reverse)

/-- File-system fixture: no file can be opened. -/
def fsAbsent : FS := fun _ => none

/-- File-system fixture: `./.luaurc` parses to a document declaring the
alias `a -> /y`. -/
def fsAliasY : FS := fun p =>
  if p = "./.luaurc" then some (Except.ok { aliases := [("a", "/y")] }) else none

/-- File-system fixture: `./.luaurc` opens but is structurally invalid. -/
def fsMalformed : FS := fun p =>
  if p = "./.luaurc" then some (Except.error "expected value") else none

/-! ## Lemmas about the alias mapping -/

theorem lookupAlias_cons (e : String × String) (m : AliasMap) (key : String) :
    lookupAlias (e :: m) key = if e.1 = key then some e.2 else lookupAlias m key := by
  by_cases h : e.1 = key
  · simp [lookupAlias, List.find?_cons_of_pos, h]
  · have hb : (e.1 == key) = false := by simpa using h
    simp [lookupAlias, List.find?_cons_of_neg, hb, h]

theorem lookupAlias_map_overwrite (m : AliasMap) (k v key : String) (hne : key ≠ k) :
    lookupAlias (List.map (fun e => if e.1 == k then (k, v) else e) m) key =
      lookupAlias m key := by
  induction m with
  | nil => rfl
  | cons e rest ih =>
    by_cases hek : e.1 = k
    · have hb : (e.1 == k) = true := by simpa using hek
      simp only [List.map_cons, hb, lookupAlias_cons]
      simp only [if_true, ite_true]
      rw [if_neg (fun h => hne h.symm), if_neg (fun h : e.1 = key => hne (hek ▸ h).symm)]
      exact ih
    · have hb : (e.1 == k) = false := by simpa using hek
      simp only [List.map_cons, hb, lookupAlias_cons]
      simp only [Bool.false_eq_true, if_false, ite_false]
      rw [ih]

theorem lookupAlias_map_hit (m : AliasMap) (k v : String)
    (hany : List.any m (fun e => e.1 == k) = true) :
    lookupAlias (List.map (fun e => if e.1 == k then (k, v) else e) m) k = some v := by
  induction m with
  | nil => simp at hany
  | cons e rest ih =>
    by_cases hek : e.1 = k
    · have hb : (e.1 == k) = true := by simpa using hek
      simp only [List.map_cons, hb, lookupAlias_cons]
      simp only [if_true, ite_true]
    · have hb : (e.1 == k) = false := by simpa using hek
      have hrest : List.any rest (fun e => e.1 == k) = true := by
        simpa [List.any_cons, hb] using hany
      simp only [List.map_cons, hb, lookupAlias_cons]
      simp only [Bool.false_eq_true, if_false, ite_false]
      rw [if_neg hek]
      exact ih hrest

theorem lookupAlias_none_of_not_any (m : AliasMap) (k : String)
    (hany : List.any m (fun e => e.1 == k) = false) :
    lookupAlias m k = none := by
  induction m with
  | nil => rfl
  | cons e rest ih =>
    have hb : (e.1 == k) = false := by
      by_contra hc
      have hc' : (e.1 == k) = true := by simpa using hc
      simp [List.any_cons, hc'] at hany
    rw [lookupAlias_cons, if_neg (by simpa using hb)]
    exact ih (by simpa [List.any_cons, hb] using hany)

theorem lookupAlias_insertAlias (m : AliasMap) (k v key : String) :
    lookupAlias (insertAlias m k v) key =
      if key = k then some v else lookupAlias m key := by
  by_cases hany : List.any m (fun e => e.1 == k) = true
  · rw [insertAlias, if_pos hany]
    by_cases hkey : key = k
    · subst hkey
      rw [if_pos rfl]
      exact lookupAlias_map_hit m key v hany
    · rw [if_neg hkey]
      exact lookupAlias_map_overwrite m k v key hkey
  · have hany' : List.any m (fun e => e.1 == k) = false := Bool.eq_false_iff.mpr hany
    rw [insertAlias, if_neg (by simp [hany']), lookupAlias]
    rw [List.find?_append]
    by_cases hkey : key = k
    · subst hkey
      have h0 : List.find? (fun e => e.1 == key) m = none := by
        have hl := lookupAlias_none_of_not_any m key hany'
        rw [lookupAlias] at hl
        exact Option.map_eq_none.1 hl
      rw [h0, if_pos rfl]
      simp [List.find?]
    · rw [if_neg hkey]
      have hb : (k == key) = false := by
        simp only [beq_eq_false_iff_ne, ne_eq]
        exact fun h => hkey h.symm
      cases h0 : List.find? (fun e => e.1 == key) m with
      | none =>
        rw [lookupAlias, h0]
        simp [List.find?, hb]
      | some w =>
        rw [lookupAlias, h0]
        rfl

theorem lookupAlias_mergeAliases (aliases : List (String × String)) (m : AliasMap)
    (key : String) :
    lookupAlias (mergeAliases aliases m) key =
      match lastAliasValue aliases key with
      | some v => some v
      | none => lookupAlias m key := by
  induction aliases using List.reverseRecOn with
  | nil => simp [mergeAliases, lastAliasValue, List.find?]
  | append_singleton as kv ih =>
    rw [mergeAliases, List.foldl_append]
    simp only [List.foldl_cons, List.foldl_nil]
    rw [show List.foldl (fun acc kv => insertAlias acc ("@" ++ kv.1) kv.2) m as =
          mergeAliases as m from rfl]
    rw [lookupAlias_insertAlias]
    by_cases hkey : key = "@" ++ kv.1
    · subst hkey
      rw [if_pos rfl]
      have hlast : lastAliasValue (as ++ [kv]) ("@" ++ kv.1) = some kv.2 := by
        rw [lastAliasValue, List.reverse_append]
        simp [List.find?_cons_of_pos]
      rw [hlast]
    · rw [if_neg hkey]
      have hlast : lastAliasValue (as ++ [kv]) key = lastAliasValue as key := by
        rw [lastAliasValue, lastAliasValue, List.reverse_append]
        have hb : (("@" ++ kv.1) == key) = false := by
          simp only [beq_eq_false_iff_ne, ne_eq]
          exact fun h => hkey h.symm
        simp [List.find?_cons_of_neg, hb]
      rw [hlast, ih]


/-! ## Claims about the configuration loader and state construction -/

/-- C3: when `load_luaurc` parses a configuration document, every parsed
(name, path) alias pair is inserted into the working mapping under the
decorated key `"@" ++ name`, overwriting any prior entry for that key
(last-loaded wins); in particular the starting mapping `@a -> /x` merged
with a convention file declaring `a -> /y` yields `@a -> /y`. -/
theorem C3_merge_inserts_decorated_overwriting :
    (∀ (fs : FS) (s : AliasMap) (doc : Luaurc) (key : String),
      fs "./.luaurc" = some (Except.ok doc) →
      load_luaurc fs s none = Except.ok (mergeAliases doc.aliases s) ∧
      lookupAlias (mergeAliases doc.aliases s) key =
        (match lastAliasValue doc.aliases key with
         | some v => some v
         | none => lookupAlias s key)) ∧
    load_luaurc fsAliasY [("@a", "/x")] none = Except.ok [("@a", "/y")] ∧
    lookupAlias [("@a", "/y")] "@a" = some "/y" := by
  refine ⟨?_, rfl, rfl⟩
  intro fs s doc key h
  exact ⟨by simp [load_luaurc, h], lookupAlias_mergeAliases doc.aliases s key⟩

theorem C3_witness :
    load_luaurc fsAliasY [("@a", "/x")] none =
        Except.ok (mergeAliases [("a", "/y")] [("@a", "/x")]) ∧
    lookupAlias (mergeAliases [("a", "/y")] [("@a", "/x")]) "@a" = some "/y" := by
  have h := C3_merge_inserts_decorated_overwriting.1 fsAliasY [("@a", "/x")]
      { aliases := [("a", "/y")] } "@a" rfl
  exact ⟨h.1, by rw [h.2]; rfl⟩

/-- C4: with no explicit path, an absent convention file makes the loader
return the starting mapping unchanged, as a success. -/
theorem C4_absent_convention_returns_input (fs : FS) (s : AliasMap)
    (h : fs "./.luaurc" = none) :
    load_luaurc fs s none = Except.ok s := by
  simp [load_luaurc, h]

theorem C4_witness :
    load_luaurc fsAbsent [("@a", "/x")] none = Except.ok [("@a", "/x")] :=
  C4_absent_convention_returns_input fsAbsent [("@a", "/x")] rfl

/-- C5: a found but structurally invalid configuration document is a
fatal parse error, returned before any merging; a successful load is
either the unchanged starting mapping or the fully merged mapping — never
a partial merge. -/
theorem C5_parse_error_fatal_no_partial_merge :
    (∀ (fs : FS) (s : AliasMap) (e : String),
      fs "./.luaurc" = some (Except.error e) →
      load_luaurc fs s none = Except.error (DarkluaError.parseError e)) ∧
    (∀ (fs : FS) (s : AliasMap) (p e : String),
      fs p = some (Except.error e) →
      load_luaurc fs s (some p) = Except.error (DarkluaError.parseError e)) ∧
    (∀ (fs : FS) (s m : AliasMap) (path : Option String),
      load_luaurc fs s path = Except.ok m →
      m = s ∨ ∃ doc : Luaurc, m = mergeAliases doc.aliases s) := by
  refine ⟨?_, ?_, ?_⟩
  · intro fs s e h
    simp [load_luaurc, h]
  · intro fs s p e h
    simp [load_luaurc, h]
  · intro fs s m path h
    cases path with
    | none =>
      rw [load_luaurc] at h
      cases hfs : fs "./.luaurc" with
      | none =>
        rw [hfs] at h
        left
        exact (Except.ok.injEq .. ▸ h).symm
      | some r =>
        cases r with
        | error e =>
          rw [hfs] at h
          cases h
        | ok doc =>
          rw [hfs] at h
          right
          exact ⟨doc, ((Except.ok.injEq .. ▸ h)).symm⟩
    | some p =>
      rw [load_luaurc] at h
      cases hfs : fs p with
      | none =>
        rw [hfs] at h
        cases h
      | some r =>
        cases r with
        | error e =>
          rw [hfs] at h
          cases h
        | ok doc =>
          rw [hfs] at h
          right
          exact ⟨doc, ((Except.ok.injEq .. ▸ h)).symm⟩

theorem C5_witness :
    load_luaurc fsMalformed [("@a", "/x")] none =
        Except.error (DarkluaError.parseError "expected value") ∧
    load_luaurc fsMalformed [] (some "./.luaurc") =
        Except.error (DarkluaError.parseError "expected value") ∧
    ([("@a", "/y")] = [("@a", "/x")] ∨
      ∃ doc : Luaurc, ([("@a", "/y")] : AliasMap) = mergeAliases doc.aliases [("@a", "/x")]) :=
  ⟨C5_parse_error_fatal_no_partial_merge.1 fsMalformed [("@a", "/x")] "expected value" rfl,
   C5_parse_error_fatal_no_partial_merge.2.1 fsMalformed [] "./.luaurc" "expected value" rfl,
   C5_parse_error_fatal_no_partial_merge.2.2 fsAliasY [("@a", "/x")] [("@a", "/y")] none rfl⟩


/-- C6: when a `PathRequireMode` is deserialized from a document whose
`sources` field is present, the parsed aliases of that field are the
starting mapping and the convention-file aliases are merged on top, so a
convention-file alias with the same decorated key overrides the explicitly
configured one. -/
theorem C6_sources_then_convention_overrides :
    (∀ (fs : FS) (s : AliasMap) (doc : Luaurc) (n v : String),
      fs "./.luaurc" = some (Except.ok doc) →
      lastAliasValue doc.aliases ("@" ++ n) = some v →
      ∃ m, deserialize_sources fs s = Except.ok m ∧
        lookupAlias m ("@" ++ n) = some v) ∧
    deserializePathRequireMode fsAliasY [("sources", ConfigValue.map [("@a", "/old")])] =
      Except.ok { module_folder_name := "init", sources := [("@a", "/y")] } := by
  refine ⟨?_, rfl⟩
  intro fs s doc n v hfs hlast
  refine ⟨mergeAliases doc.aliases s, ?_, ?_⟩
  · rw [deserialize_sources]
    simp [load_luaurc, hfs]
  · rw [lookupAlias_mergeAliases, hlast]

theorem C6_witness :
    ∃ m, deserialize_sources fsAliasY [("@a", "/old")] = Except.ok m ∧
      lookupAlias m ("@" ++ "a") = some "/y" :=
  C6_sources_then_convention_overrides.1 fsAliasY [("@a", "/old")]
    { aliases := [("a", "/y")] } "a" "/y" rfl rfl

theorem deserializeFields_unknown_field (fs : FS) (doc : ConfigDoc)
    (h : ∃ kv ∈ doc, kv.1 ≠ "module_folder_name" ∧ kv.1 ≠ "sources") :
    ∀ (mfn : Option String) (srcs : Option AliasMap),
      ∃ e, deserializeFields fs doc mfn srcs = Except.error e := by
  induction doc with
  | nil =>
    obtain ⟨kv, hmem, _⟩ := h
    cases hmem
  | cons kv rest ih =>
    intro mfn srcs
    obtain ⟨k, v⟩ := kv
    obtain ⟨kv', hmem, h1, h2⟩ := h
    simp only [deserializeFields]
    by_cases hk1 : k = "module_folder_name"
    · rw [if_pos hk1]
      have hmem' : kv' ∈ rest := by
        cases hmem with
        | head => exact absurd hk1 h1
        | tail _ hm => exact hm
      have ih' := ih ⟨kv', hmem', h1, h2⟩
      cases mfn with
      | some s0 => exact ⟨_, rfl⟩
      | none =>
        cases v with
        | str s0 => exact ih' (some s0) srcs
        | map entries => exact ⟨_, rfl⟩
        | otherValue => exact ⟨_, rfl⟩
    · rw [if_neg hk1]
      by_cases hk2 : k = "sources"
      · rw [if_pos hk2]
        have hmem' : kv' ∈ rest := by
          cases hmem with
          | head => exact absurd hk2 h2
          | tail _ hm => exact hm
        have ih' := ih ⟨kv', hmem', h1, h2⟩
        cases srcs with
        | some s0 => exact ⟨_, rfl⟩
        | none =>
          cases v with
          | str s0 => exact ⟨_, rfl⟩
          | map entries =>
            cases hd : deserialize_sources fs (deserializeRawMap entries) with
            | ok m =>
              obtain ⟨e2, he2⟩ := ih' mfn (some m)
              exact ⟨e2, by simp [hd, he2]⟩
            | error e => exact ⟨e, by simp [hd]⟩
          | otherValue => exact ⟨_, rfl⟩
      · rw [if_neg hk2]
        exact ⟨_, rfl⟩

/-- C7: deserializing a `PathRequireMode` document containing any field
other than `module_folder_name` and `sources` is rejected with a
configuration error, for every such document. -/
theorem C7_unknown_field_rejected (fs : FS) (doc : ConfigDoc)
    (h : ∃ kv ∈ doc, kv.1 ≠ "module_folder_name" ∧ kv.1 ≠ "sources") :
    ∃ e, deserializePathRequireMode fs doc = Except.error e :=
  deserializeFields_unknown_field fs doc h none none

theorem C7_witness :
    ∃ e, deserializePathRequireMode fsAbsent [("extra", ConfigValue.str "x")] =
      Except.error e :=
  C7_unknown_field_rejected fsAbsent [("extra", ConfigValue.str "x")]
    ⟨("extra", ConfigValue.str "x"), List.mem_singleton.mpr rfl, by decide, by decide⟩

/-- C10: default construction (`Default`, `new`, and deserialization with
no `sources` field) never fails — when the convention file exists but is
structurally invalid, the loader's parse error is silently discarded and
the alias mapping defaults to empty. -/
theorem C10_default_discards_parse_error (fs : FS) (e : String)
    (h : fs "./.luaurc" = some (Except.error e)) :
    load_luaurc fs [] none = Except.error (DarkluaError.parseError e) ∧
    default_sources fs = [] ∧
    (PathRequireMode.default fs).sources = [] ∧
    (∀ name, (PathRequireMode.new fs name).sources = []) ∧
    deserializePathRequireMode fs [] =
      Except.ok { module_folder_name := "init", sources := [] } ∧
    deserializePathRequireMode fs [("module_folder_name", ConfigValue.str "mod")] =
      Except.ok { module_folder_name := "mod", sources := [] } := by
  have h1 : load_luaurc fs [] none = Except.error (DarkluaError.parseError e) := by
    simp [load_luaurc, h]
  have h2 : default_sources fs = [] := by rw [default_sources, h1]
  refine ⟨h1, h2, ?_, ?_, ?_, ?_⟩
  · simp [PathRequireMode.default, h2]
  · intro name
    simp [PathRequireMode.new, h2]
  · simp [deserializePathRequireMode, deserializeFields, h2, DEFAULT_MODULE_FOLDER_NAME]
  · simp [deserializePathRequireMode, deserializeFields, h2, DEFAULT_MODULE_FOLDER_NAME]

theorem C10_witness :
    load_luaurc fsMalformed [] none =
        Except.error (DarkluaError.parseError "expected value") ∧
    default_sources fsMalformed = [] ∧
    (PathRequireMode.default fsMalformed).sources = [] ∧
    (∀ name, (PathRequireMode.new fsMalformed name).sources = []) ∧
    deserializePathRequireMode fsMalformed [] =
      Except.ok { module_folder_name := "init", sources := [] } ∧
    deserializePathRequireMode fsMalformed [("module_folder_name", ConfigValue.str "mod")] =
      Except.ok { module_folder_name := "mod", sources := [] } :=
  C10_default_discards_parse_error fsMalformed "expected value" rfl


/-! ## Claims about the predicate, the emitter and the round trip -/

/-- C2: for every mode and path, `is_module_folder_name` is true iff the
path's final component, as a whole file name, equals the configured module
folder name, or that component with its single trailing extension removed
(the file stem) equals it; with the default name `init`: `oops.lua` is
false, `init.lua` true, `init.luau` true, `folder/init.lua` true, `init`
true, `myinit.lua` false. -/
theorem C2_module_folder_predicate :
    (∀ (mode : PathRequireMode) (p : String),
      mode.is_module_folder_name p = true ↔
        ∃ c, fileName p = some c ∧
          (c = mode.module_folder_name ∨ fileStemOfName c = mode.module_folder_name)) ∧
    ((PathRequireMode.default fsAbsent).is_module_folder_name "oops.lua" = false ∧
     (PathRequireMode.default fsAbsent).is_module_folder_name "init.lua" = true ∧
     (PathRequireMode.default fsAbsent).is_module_folder_name "init.luau" = true ∧
     (PathRequireMode.default fsAbsent).is_module_folder_name "folder/init.lua" = true ∧
     (PathRequireMode.default fsAbsent).is_module_folder_name "init" = true ∧
     (PathRequireMode.default fsAbsent).is_module_folder_name "myinit.lua" = false) := by
  refine ⟨?_, by decide⟩
  intro mode p
  rw [PathRequireMode.is_module_folder_name, fileStem]
  cases h : fileName p with
  | none => simp
  | some c => simp [h]


/-- C1 counterexample: the claim says text already beginning with `../`
passes through the prefix rule unchanged, but `generate_require`'s rule
only checks for `./`, so the parent-directory text `../foo.lua` has `./`
prepended, yielding `./../foo.lua`. -/
theorem C1_counterexample_parent_gets_dot_slash :
    strStartsWith "../" (replaceBackslash "../foo.lua") = true ∧
    generate_require_path "../foo.lua" ≠ "../foo.lua" ∧
    generate_require_path "../foo.lua" = "./../foo.lua" := by
  refine ⟨rfl, ?_, rfl⟩
  decide

/-- C1 amended: `generate_require` prepends `./` whenever the normalized
relative text does not already begin with `./` — including text beginning
with `../`, which becomes `./../…`; only text already beginning with `./`
passes through unchanged. -/
theorem C1_amended_prefix_rule :
    (∀ diff : String,
      (strStartsWith "./" (replaceBackslash diff) = true →
        generate_require_path diff = replaceBackslash diff) ∧
      (strStartsWith "./" (replaceBackslash diff) = false →
        generate_require_path diff = "./" ++ replaceBackslash diff)) ∧
    generate_require_path "foo.lua" = "./foo.lua" ∧
    generate_require_path "./bar.lua" = "./bar.lua" ∧
    generate_require_path "../x.lua" = "./../x.lua" ∧
    generate_require_literal "foo.lua" = "[[./foo.lua]]" := by
  refine ⟨?_, rfl, rfl, rfl, rfl⟩
  intro diff
  constructor
  · intro h
    rw [generate_require_path, applyPrefixRule, if_pos h]
  · intro h
    rw [generate_require_path, applyPrefixRule, if_neg (by rw [h]; exact Bool.false_ne_true)]

theorem C1_amended_witness :
    generate_require_path "./bar2.lua" = replaceBackslash "./bar2.lua" ∧
    generate_require_path "sub/mod.lua" = "./" ++ replaceBackslash "sub/mod.lua" :=
  ⟨(C1_amended_prefix_rule.1 "./bar2.lua").1 rfl,
   (C1_amended_prefix_rule.1 "sub/mod.lua").2 rfl⟩

/-- C8: every backslash separator in the computed relative difference is
normalized to a forward slash in the emitted literal — the literal never
contains a backslash, and a backslash-containing difference yields a
forward-slash-only literal. -/
theorem C8_separators_forward_slash :
    (∀ diff : String, '\\' ∉ (generate_require_literal diff).data) ∧
    generate_require_path "..\\foo\\bar.lua" = "./../foo/bar.lua" ∧
    generate_require_literal "sub\\mod.lua" = "[[./sub/mod.lua]]" := by
  refine ⟨?_, rfl, rfl⟩
  intro diff
  have hrep : ∀ s : String, '\\' ∉ (replaceBackslash s).data := by
    intro s hmem
    rw [replaceBackslash] at hmem
    simp only [List.mem_map] at hmem
    obtain ⟨c, _, hc⟩ := hmem
    rw [backslashToSlash] at hc
    by_cases h : c = '\\'
    · rw [if_pos h] at hc
      exact absurd hc (by decide)
    · rw [if_neg h] at hc
      exact h hc
  intro hmem
  rw [generate_require_literal, generate_require_path, applyPrefixRule] at hmem
  by_cases h : strStartsWith "./" (replaceBackslash diff) = true
  · rw [if_pos h] at hmem
    rw [String.data_append, String.data_append] at hmem
    rcases List.mem_append.1 hmem with h1 | h1
    · rcases List.mem_append.1 h1 with h2 | h2
      · exact absurd h2 (by decide)
      · exact hrep diff h2
    · exact absurd h1 (by decide)
  · rw [if_neg h] at hmem
    rw [String.data_append, String.data_append, String.data_append] at hmem
    rcases List.mem_append.1 hmem with h1 | h1
    · rcases List.mem_append.1 h1 with h2 | h2
      · exact absurd h2 (by decide)
      · rcases List.mem_append.1 h2 with h3 | h3
        · exact absurd h3 (by decide)
        · exact hrep diff h3
    · exact absurd h1 (by decide)


theorem CleanPath_dropLast (p : Segs) (h : CleanPath p) : CleanPath p.dropLast :=
  fun s hs => h s ((List.dropLast_sublist ..).subset hs)

theorem CleanPath_normJoin (base rel : Segs) (h : CleanPath base) :
    CleanPath (normJoin base rel) := by
  induction rel generalizing base with
  | nil => exact h
  | cons s rest ih =>
    rw [normJoin, List.foldl_cons]
    apply ih
    rw [joinStep]
    by_cases h1 : s = "."
    · rw [if_pos h1]
      exact h
    · rw [if_neg h1]
      by_cases h2 : s = ".."
      · rw [if_pos h2]
        exact CleanPath_dropLast base h
      · rw [if_neg h2]
        intro x hx
        rcases List.mem_append.1 hx with hx | hx
        · exact h x hx
        · cases List.mem_singleton.1 hx
          exact ⟨h1, h2⟩

theorem normJoin_append (b r1 r2 : Segs) :
    normJoin b (r1 ++ r2) = normJoin (normJoin b r1) r2 := by
  rw [normJoin, normJoin, normJoin, List.foldl_append]

theorem normJoin_clean_append (b r : Segs) (h : CleanPath r) : normJoin b r = b ++ r := by
  induction r generalizing b with
  | nil => simp [normJoin]
  | cons s rest ih =>
    have hs := h s (List.mem_cons_self s rest)
    rw [normJoin, List.foldl_cons]
    have hstep : joinStep b s = b ++ [s] := by
      rw [joinStep, if_neg hs.1, if_neg hs.2]
    rw [hstep]
    rw [show List.foldl joinStep (b ++ [s]) rest = normJoin (b ++ [s]) rest from rfl]
    rw [ih (b ++ [s]) (fun x hx => h x (List.mem_cons_of_mem s hx))]
    simp

theorem normJoin_replicate_parent (k : Nat) (b : Segs) :
    normJoin b (List.replicate k "..") = List.take (b.length - k) b := by
  induction k generalizing b with
  | zero => simp [normJoin]
  | succ n ih =>
    rw [List.replicate_succ, normJoin, List.foldl_cons]
    have hstep : joinStep b ".." = b.dropLast := by simp [joinStep]
    rw [hstep]
    rw [show List.foldl joinStep b.dropLast (List.replicate n "..") =
          normJoin b.dropLast (List.replicate n "..") from rfl]
    rw [ih b.dropLast, List.dropLast_eq_take, List.length_take, List.take_take]
    congr 1
    omega

theorem commonPrefixLen_le_right (a b : Segs) : commonPrefixLen a b ≤ b.length := by
  induction a generalizing b with
  | nil =>
    cases b <;> simp [commonPrefixLen]
  | cons x as ih =>
    cases b with
    | nil => simp [commonPrefixLen]
    | cons y bs =>
      rw [commonPrefixLen]
      by_cases h : x = y
      · rw [if_pos h]
        simpa using ih bs
      · rw [if_neg h]
        simp

theorem take_commonPrefixLen_eq (a b : Segs) :
    List.take (commonPrefixLen a b) a = List.take (commonPrefixLen a b) b := by
  induction a generalizing b with
  | nil => cases b <;> simp [commonPrefixLen]
  | cons x as ih =>
    cases b with
    | nil => simp [commonPrefixLen]
    | cons y bs =>
      rw [commonPrefixLen]
      by_cases h : x = y
      · rw [if_pos h]
        simp [List.take_succ_cons, h, ih bs]
      · rw [if_neg h]
        simp

theorem normJoin_diff_paths (target base : Segs) (ht : CleanPath target) :
    normJoin base (diff_paths target base) = target := by
  rw [diff_paths, normJoin_append, normJoin_replicate_parent]
  rw [Nat.sub_sub_self (commonPrefixLen_le_right target base)]
  rw [← take_commonPrefixLen_eq target base]
  rw [normJoin_clean_append _ _
    (fun x hx => ht x ((List.drop_sublist ..).subset hx))]
  exact List.take_append_drop _ _

theorem normJoin_applyPrefixSeg (b d : Segs) :
    normJoin b (applyPrefixSeg d) = normJoin b d := by
  rw [applyPrefixSeg]
  by_cases h : d.head? = some "."
  · rw [if_pos h]
  · rw [if_neg h, normJoin, List.foldl_cons]
    have hstep : joinStep b "." = b := by simp [joinStep]
    rw [hstep]
    rfl

/-- C9: round trip — for every target reachable from the current file via
some relative literal, generating a replacement literal from the resolved
target with `generate_require` and resolving that literal from the same
file again yields the same target (resolution and difference modelled from
the spec at segment level). -/
theorem C9_resolve_generate_roundtrip (fs : List Segs) (literal current target : Segs)
    (hcur : CleanPath current)
    (h : find_require_path fs literal current = some target) :
    find_require_path fs (generate_require_segments target current) current =
      some target := by
  have hbase : CleanPath current.dropLast := CleanPath_dropLast current hcur
  simp only [find_require_path] at h ⊢
  by_cases h1 : normJoin current.dropLast literal ∈ fs
  · rw [if_pos h1] at h
    injection h with h
    subst h
    have htc : CleanPath (normJoin current.dropLast literal) :=
      CleanPath_normJoin _ _ hbase
    rw [generate_require_segments, normJoin_applyPrefixSeg,
        normJoin_diff_paths _ _ htc, if_pos h1]
  · rw [if_neg h1] at h
    by_cases h2 : normJoin current.dropLast literal ++ ["init.lua"] ∈ fs
    · rw [if_pos h2] at h
      injection h with h
      subst h
      have htc : CleanPath (normJoin current.dropLast literal ++ ["init.lua"]) := by
        intro x hx
        rcases List.mem_append.1 hx with hx | hx
        · exact CleanPath_normJoin _ _ hbase x hx
        · cases List.mem_singleton.1 hx
          exact ⟨by decide, by decide⟩
      rw [generate_require_segments, normJoin_applyPrefixSeg,
          normJoin_diff_paths _ _ htc, if_pos h2]
    · rw [if_neg h2] at h
      cases h

theorem C9_witness :
    find_require_path [["a", "b", "init.lua"]]
      (generate_require_segments ["a", "b", "init.lua"] ["a", "c", "main.lua"])
      ["a", "c", "main.lua"] = some ["a", "b", "init.lua"] :=
  C9_resolve_generate_roundtrip [["a", "b", "init.lua"]] ["..", "b"]
    ["a", "c", "main.lua"] ["a", "b", "init.lua"] (by decide) (by decide)

end Darklua
